import Mathlib

/-!
Verification of the pyser grammar engine (src/pyser/__init__.py) against its
specification.  The Python source is shallowly embedded: text is `List Char`,
Python dicts (which preserve insertion order and update keys in place) are
association lists, the regular expressions installed by `add_auto_token` are
embedded as the four concrete matchers they denote, and the mutually
recursive parser is given a fuel parameter (`none` = the Python computation
does not terminate within the given fuel; every claim quantifies over fuel or
evaluates at a concrete, sufficient fuel).
-/

namespace Pyser

/-! ### Character classes (ASCII fragment of Python's `\s`, `\d`, `\w`) -/

/-- Python regex whitespace `\s` (ASCII part): space, tab, newline, carriage
return, vertical tab, form feed. -/
def isPySpace (c : Char) : Bool :=
  c = ' ' || c = '\t' || c = '\n' || c = '\r' || c = Char.ofNat 11 || c = Char.ofNat 12

/-- Python regex word character `\w` (ASCII part): letters, digits, underscore. -/
def isWordChar (c : Char) : Bool :=
  c.isAlphanum || c = '_'

/-- Length of the longest prefix of `s` all of whose characters satisfy `p`. -/
def takeWhileLen (p : Char → Bool) : List Char → Nat
  | [] => 0
  | c :: cs => if p c then takeWhileLen p cs + 1 else 0

/-- Python `text.startswith(lit, position)`: is `lit` a prefix of `s`
(where `s` is the text from `position` on)? -/
def isLitAt : List Char → List Char → Bool
  | _, [] => true
  | [], _ :: _ => false
  | c :: cs, l :: ls => c = l && isLitAt cs ls

/-- Python `str.lstrip()` (ASCII whitespace). -/
def lstrip (s : List Char) : List Char := s.dropWhile isPySpace

/-- Python `str.rstrip()` (ASCII whitespace). -/
def rstrip (s : List Char) : List Char := (s.reverse.dropWhile isPySpace).reverse

/-- Python `str.strip()` (ASCII whitespace). -/
def strip (s : List Char) : List Char := rstrip (lstrip s)

/-! ### Token definitions and the token catalog -/

/-- The regex patterns produced by `TokenType.add_auto_token`.  Only these
four patterns occur in the program, so the embedding enumerates them. -/
inductive Pat where
  | number      -- r'\d+(\.\d+)?'
  | string      -- r'"[^"]*"'
  | identifier  -- r'[A-Za-z_]\w*'
  | word        -- r'\w+'
deriving DecidableEq, Repr

/-- Python `re.match(pattern, s)` for the four auto patterns: length of the
match at the start of `s`, or `none` when there is no match.  Each
quantifier is greedy, exactly as in the regexes above. -/
def patMatch : Pat → List Char → Option Nat
  | .number, s =>
      let n := takeWhileLen Char.isDigit s
      if n = 0 then none
      else
        match s.drop n with
        | '.' :: rest =>
            let m := takeWhileLen Char.isDigit rest
            if m = 0 then some n else some (n + 1 + m)
        | _ => some n
  | .string, s =>
      match s with
      | '"' :: rest =>
          let k := takeWhileLen (fun c => !(c = '"')) rest
          match rest.drop k with
          | [] => none          -- no closing quote
          | _ :: _ => some (k + 2)
      | _ => none
  | .identifier, s =>
      match s with
      | c :: rest =>
          if c.isAlpha || c = '_' then some (1 + takeWhileLen isWordChar rest) else none
      | [] => none
  | .word, s =>
      let n := takeWhileLen isWordChar s
      if n = 0 then none else some n

/-- `TokenDefinition(name, value=None, pattern=None)`: a literal token type
has `value = some lit`; an auto token has `pattern = some p`. -/
structure TokenDefinition where
  name : String
  value : Option (List Char) := none
  pattern : Option Pat := none
deriving DecidableEq, Repr

/-- `TokenDefinition.__eq__`: two definitions are equal when their `name` and
`value` agree (the pattern is not compared). -/
def TokenDefinition.pyEq (a b : TokenDefinition) : Bool :=
  a.name == b.name && a.value == b.value

/-- `Token(type_def, value, position)`. -/
structure Token where
  type : TokenDefinition
  value : List Char
  position : Nat
deriving DecidableEq, Repr

/-- Python dict assignment `d[k] = v`: update the existing entry in place
(keeping its position in the insertion order), otherwise append. -/
def dictSet {α : Type} (d : List (String × α)) (k : String) (v : α) :
    List (String × α) :=
  match d with
  | [] => [(k, v)]
  | (k', v') :: rest => if k' = k then (k, v) :: rest else (k', v') :: dictSet rest k v

/-- Python dict lookup `d[k]` / `k in d` (insertion-ordered association list). -/
def alookup {α : Type} (k : String) : List (String × α) → Option α
  | [] => none
  | (k', v) :: rest => if k' = k then some v else alookup k rest

/-- The `TokenType.tokens` catalog: an insertion-ordered map from token names
to definitions. -/
abbrev Catalog := List (String × TokenDefinition)

/-- `TokenType.add_token(name, literal)`: creates a literal token type,
unconditionally assigning it under `name`. -/
def add_token (d : Catalog) (name : String) (literal : List Char) : Catalog :=
  dictSet d name { name := name, value := some literal }

/-- The pattern `add_auto_token` selects from the token name. -/
def autoPattern (name : String) : Pat :=
  if name = "NUMBER" then .number
  else if name = "STRING" then .string
  else if name = "IDENTIFIER" then .identifier
  else .word

/-- `TokenType.add_auto_token(name)`: returns the catalog unchanged when the
name is already defined, otherwise adds an auto token whose pattern is chosen
from the name. -/
def add_auto_token (d : Catalog) (name : String) : Catalog :=
  if (alookup name d).isSome then d
  else dictSet d name { name := name, pattern := some (autoPattern name) }

/-! ### Lexer -/

/-- The literal scan of `Lexer.tokenize`: the first registered definition
with a literal value that is a prefix of the remaining text.  Pattern
definitions (`value is None`) are skipped. -/
def findLiteral (defs : List TokenDefinition) (rest : List Char) :
    Option (TokenDefinition × List Char) :=
  match defs with
  | [] => none
  | td :: tds =>
      match td.value with
      | some lit => if isLitAt rest lit then some (td, lit) else findLiteral tds rest
      | none => findLiteral tds rest

/-- The auto-token scan of `Lexer.tokenize`: the first registered pattern
definition whose pattern matches at the start of the remaining text, together
with the match length.  Literal definitions are skipped.  (A definition with
neither value nor pattern cannot be built through `TokenType`.) -/
def findPat (defs : List TokenDefinition) (rest : List Char) :
    Option (TokenDefinition × Nat) :=
  match defs with
  | [] => none
  | td :: tds =>
      match td.value, td.pattern with
      | none, some p =>
          match patMatch p rest with
          | some n => some (td, n)
          | none => findPat tds rest
      | _, _ => findPat tds rest

/-- The `while position < len(text)` loop of `Lexer.tokenize`, with fuel
bounding the number of iterations (`none` = the Python loop does not
terminate within the fuel, e.g. when an empty literal is registered).
Returns `Except.error offset` for the `ValueError` raised at an unmatched
position. -/
def tokenizeFrom (defs : List TokenDefinition) :
    Nat → List Char → Nat → Option (Except Nat (List Token))
  | 0, _, _ => none
  | fuel + 1, text, position =>
      if position < text.length then
        -- skip any whitespace
        let ws := takeWhileLen isPySpace (text.drop position)
        let position := position + ws
        if position ≥ text.length then some (.ok [])
        else
          match findLiteral defs (text.drop position) with
          | some (td, lit) =>
              match tokenizeFrom defs fuel text (position + lit.length) with
              | some (.ok toks) => some (.ok (Token.mk td lit position :: toks))
              | other => other
          | none =>
              match findPat defs (text.drop position) with
              | some (td, n) =>
                  match tokenizeFrom defs fuel text (position + n) with
                  | some (.ok toks) =>
                      some (.ok (Token.mk td ((text.drop position).take n) position :: toks))
                  | other => other
              | none => some (.error position)
      else some (.ok [])

/-- `Lexer.tokenize(text)`: strip the text, then run the scanning loop from
position 0.  Every productive iteration consumes at least one character, so
`length + 1` fuel suffices whenever the Python loop terminates. -/
def tokenize (defs : List TokenDefinition) (text : List Char) :
    Option (Except Nat (List Token)) :=
  let t := strip text
  tokenizeFrom defs (t.length + 1) t 0

/-! ### The lexing algorithm as the specification words it

The spec (§4.1) describes the algorithm as: trim the input; repeat — skip a
run of whitespace; scan literal kinds in registration order, the first whose
literal value is a prefix at the current position wins; if none matched,
scan pattern kinds in registration order, the first whose pattern matches a
NON-EMPTY prefix wins; if none, fail with the offset.  The definitions below
follow those words; the only difference from the source is the explicit
non-emptiness requirement on pattern matches. -/

/-- Spec wording: the first pattern kind, in registration order, whose
pattern matches a non-empty prefix of the remaining text. -/
def specFindPat (defs : List TokenDefinition) (rest : List Char) :
    Option (TokenDefinition × Nat) :=
  match defs with
  | [] => none
  | td :: tds =>
      match td.value, td.pattern with
      | none, some p =>
          match patMatch p rest with
          | some n => if n = 0 then specFindPat tds rest else some (td, n)
          | none => specFindPat tds rest
      | _, _ => specFindPat tds rest

/-- Spec wording of the scanning loop (fuel as in `tokenizeFrom`). -/
def specTokenizeFrom (defs : List TokenDefinition) :
    Nat → List Char → Nat → Option (Except Nat (List Token))
  | 0, _, _ => none
  | fuel + 1, text, position =>
      if position < text.length then
        let ws := takeWhileLen isPySpace (text.drop position)
        let position := position + ws
        if position ≥ text.length then some (.ok [])
        else
          match findLiteral defs (text.drop position) with
          | some (td, lit) =>
              match specTokenizeFrom defs fuel text (position + lit.length) with
              | some (.ok toks) => some (.ok (Token.mk td lit position :: toks))
              | other => other
          | none =>
              match specFindPat defs (text.drop position) with
              | some (td, n) =>
                  match specTokenizeFrom defs fuel text (position + n) with
                  | some (.ok toks) =>
                      some (.ok (Token.mk td ((text.drop position).take n) position :: toks))
                  | other => other
              | none => some (.error position)
      else some (.ok [])

/-- Spec wording of `tokenize`: trim, then scan from offset 0. -/
def specTokenize (defs : List TokenDefinition) (text : List Char) :
    Option (Except Nat (List Token)) :=
  let t := strip text
  specTokenizeFrom defs (t.length + 1) t 0

/-! ### Parser

In the Python source a rule alternative may be a `TokenDefinition`, a
`ParsingRule` object, or an inline dict.  All `ParsingRule` objects live in
the central `Parser.rules` registry and `Parser.__setitem__` mutates them in
place, so a `ParsingRule` alternative is a non-owning handle into the
registry; the embedding represents it as a reference by rule name resolved
in an environment (the registry).  This also breaks the cyclic rule graph. -/

/-- An alternative inside a slot of a rule definition. -/
inductive Element where
  | tok (td : TokenDefinition)                         -- a TokenDefinition
  | ruleRef (name : String)                            -- a ParsingRule handle
  | inline (defn : List (String × List Element))      -- an inline dict

/-- A rule definition: the insertion-ordered `slot → alternatives` dict. -/
abbrev Defn := List (String × List Element)

/-- The `Parser.rules` registry as seen by `_parse_rule`: rule name →
current definition. -/
abbrev Env := List (String × Defn)

/-- A parse-tree node (a Python dict).  `leaf` is the dict
produced for a matched token (a `type` and a `value` key); `node` is the
dict produced for a rule, with a `type` key, the mandatory-slot entries in
insertion order, and the `optional` key, present (`some`) exactly when the
optional loop accumulated a non-empty list. -/
inductive Node where
  | leaf (type : String) (value : List Char)
  | node (type : String) (parts : List (String × Node)) (optional : Option (List Node))

/-- The mandatory slots of a definition, in declared order:
`[k for k in rule.definition.keys() if k != "optional"]`. -/
def mandatoryParts (defn : Defn) : Defn :=
  defn.filter (fun kv => kv.1 ≠ "optional")

mutual

/-- `Parser._parse_rule(rule, tokens, pos)`.  Fuel decreases on every call;
`none` means the Python computation does not finish within the fuel.
On a mandatory-slot failure the result is `(none, pos)`: the position resets
to the entry position. -/
def parseRule (env : Env) : Nat → String → Defn → List Token → Nat →
    Option (Option Node × Nat)
  | 0, _, _, _, _ => none
  | fuel + 1, name, defn, tokens, pos =>
      match parseParts env fuel (mandatoryParts defn) tokens pos with
      | none => none
      | some (none, _) => some (none, pos)
      | some (some parts, pos1) =>
          match alookup "optional" defn with
          | none => some (some (.node name parts none), pos1)
          | some opts =>
              match parseOptional env fuel opts tokens pos1 [] with
              | none => none
              | some (results, pos2) =>
                  some (some (.node name parts
                    (if results.isEmpty then none else some results)), pos2)
  termination_by structural fuel => fuel

/-- The loop over the mandatory slots in `_parse_rule`: each slot must be
matched by one of its alternatives; the first slot with no matching
alternative fails the whole list (first component `none`). -/
def parseParts (env : Env) : Nat → List (String × List Element) → List Token →
    Nat → Option (Option (List (String × Node)) × Nat)
  | 0, _, _, _ => none
  | _ + 1, [], _, pos => some (some [], pos)
  | fuel + 1, (part, alts) :: rest, tokens, pos =>
      match parseAlts env fuel alts tokens pos with
      | none => none
      | some (none, _) => some (none, pos)
      | some (some n, pos1) =>
          match parseParts env fuel rest tokens pos1 with
          | none => none
          | some (none, p) => some (none, p)
          | some (some ns, pos2) => some (some ((part, n) :: ns), pos2)
  termination_by structural fuel => fuel

/-- The `for alt in alternatives` loop of `_parse_rule` (also the inner
`for opt in ...` loop of the optional phase): try each alternative in
declared order at the same position, take the first that matches. -/
def parseAlts (env : Env) : Nat → List Element → List Token → Nat →
    Option (Option Node × Nat)
  | 0, _, _, _ => none
  | _ + 1, [], _, pos => some (none, pos)
  | fuel + 1, alt :: alts, tokens, pos =>
      match parseElement env fuel alt tokens pos with
      | none => none
      | some (some n, pos1) => some (some n, pos1)
      | some (none, _) => parseAlts env fuel alts tokens pos
  termination_by structural fuel => fuel

/-- The `while True` optional loop of `_parse_rule`: each round tries the
optional alternatives in order; the first success is appended to the
accumulator and the loop repeats at the new position; the loop stops at the
first round in which no alternative matches. -/
def parseOptional (env : Env) : Nat → List Element → List Token → Nat →
    List Node → Option (List Node × Nat)
  | 0, _, _, _, _ => none
  | fuel + 1, opts, tokens, pos, acc =>
      match parseAlts env fuel opts tokens pos with
      | none => none
      | some (none, _) => some (acc, pos)
      | some (some n, pos1) => parseOptional env fuel opts tokens pos1 (acc ++ [n])
  termination_by structural fuel => fuel

/-- `Parser._parse_element(element, tokens, pos)`: a token definition matches
one token by `TokenDefinition.__eq__` (name and value agree); a rule handle
recursively matches the referenced rule (a dangling handle cannot arise
through the registry); an inline dict is matched as an anonymous rule named
"temp". -/
def parseElement (env : Env) : Nat → Element → List Token → Nat →
    Option (Option Node × Nat)
  | 0, _, _, _ => none
  | _ + 1, .tok td, tokens, pos =>
      if h : pos < tokens.length then
        let t := tokens.get ⟨pos, h⟩
        if t.type.pyEq td then
          some (some (.leaf t.type.name t.value), pos + 1)
        else some (none, pos)
      else some (none, pos)
  | fuel + 1, .ruleRef name, tokens, pos =>
      match alookup name env with
      | some defn => parseRule env fuel name defn tokens pos
      | none => some (none, pos)
  | fuel + 1, .inline defn, tokens, pos =>
      parseRule env fuel "temp" defn tokens pos
  termination_by structural fuel => fuel

end

/-- `Parser.parse(tokens, start_rule_name)`: raise (`Except.error`) when the
start rule is not registered (Python `KeyError`), when the rule does not
match, or when the final position differs from the token count (Python
`ValueError("Parsing failed")`). -/
def parse (env : Env) (fuel : Nat) (startRuleName : String) (tokens : List Token) :
    Option (Except String Node) :=
  match alookup startRuleName env with
  | none => some (.error "KeyError")
  | some defn =>
      match parseRule env fuel startRuleName defn tokens 0 with
      | none => none
      | some (none, _) => some (.error "Parsing failed")
      | some (some node, pos) =>
          if pos = tokens.length then some (.ok node)
          else some (.error "Parsing failed")

/-! ### The rule registry (`Parser.rules` as mutable objects)

`Parser.new_parsing_rule` allocates a fresh `ParsingRule` object and binds
the name to it; `Parser.__setitem__` mutates the already-bound object in
place when the name exists.  Object identity is modelled by an allocation
counter `id`: two registry snapshots refer to the same Python object exactly
when the `id`s agree. -/

/-- A `ParsingRule` object: its identity, `name`, and current `definition`
(initially the empty dict). -/
structure ParsingRuleObj where
  id : Nat
  name : String
  definition : Defn

/-- `ParsingRule.update_definition(definition)`: replace the definition on
the same object.  No validation of any kind is performed. -/
def updateDefinition (r : ParsingRuleObj) (d : Defn) : ParsingRuleObj :=
  { r with definition := d }

/-- The mutable state of a `Parser`: the `rules` registry plus the
allocation counter. -/
structure ParserState where
  rules : List (String × ParsingRuleObj)
  nextId : Nat

/-- A parser with no rules. -/
def emptyParser : ParserState := { rules := [], nextId := 0 }

/-- `Parser.new_parsing_rule(name)`: unconditionally allocates a fresh,
empty `ParsingRule` and assigns it under `name` (the method returns `None`
in Python; any previously bound object is discarded from the registry). -/
def new_parsing_rule (s : ParserState) (name : String) : ParserState :=
  { rules := dictSet s.rules name ⟨s.nextId, name, []⟩
    nextId := s.nextId + 1 }

/-- `Parser.__setitem__(key, value)`: when `key` is bound, call
`update_definition` on the existing object (in-place mutation, same
identity); otherwise allocate a fresh rule and install the definition. -/
def setitem (s : ParserState) (key : String) (value : Defn) : ParserState :=
  match alookup key s.rules with
  | some obj => { s with rules := dictSet s.rules key (updateDefinition obj value) }
  | none =>
      { rules := dictSet s.rules key (updateDefinition ⟨s.nextId, key, []⟩ value)
        nextId := s.nextId + 1 }

/-! ### Interpreter: start-rule selection -/

/-- The dynamic start-rule selection of `Interpreter.interpret` for text
input (the rest of `interpret` synthesises Python code at runtime and is
outside this embedding): a rule literally named "program" wins; otherwise
the first token's kind name is tried exactly, then lowercased; otherwise an
"LPAREN" first token selects "paren_math" when that rule exists; otherwise
the default "math".  `ruleNames` are the keys of `parser.rules`. -/
def selectStartRule (ruleNames : List String) (tokens : List Token) : String :=
  if "program" ∈ ruleNames then "program"
  else
    let candidate := match tokens with
      | [] => "math"
      | t :: _ => t.type.name
    if candidate ∈ ruleNames then candidate
    else if candidate.toLower ∈ ruleNames then candidate.toLower
    else if candidate = "LPAREN" ∧ "paren_math" ∈ ruleNames then "paren_math"
    else "math"

/-! ### Concrete fixtures: the grammar of src/main.py -/

/-- Token definitions registered in src/main.py. -/
def tdPLUS : TokenDefinition := { name := "PLUS", value := some ['+'] }

def tdMINUS : TokenDefinition := { name := "MINUS", value := some ['-'] }

def tdMULTIPLY : TokenDefinition := { name := "MULTIPLY", value := some ['*'] }

def tdDIVIDE : TokenDefinition := { name := "DIVIDE", value := some ['/'] }

def tdLPAREN : TokenDefinition := { name := "LPAREN", value := some ['('] }

def tdRPAREN : TokenDefinition := { name := "RPAREN", value := some [')'] }

def tdNUMBER : TokenDefinition := { name := "NUMBER", pattern := some .number }

def tdSTRING : TokenDefinition := { name := "STRING", pattern := some .string }

def tdPRINT : TokenDefinition :=
  { name := "PRINT", value := some ['p', 'r', 'i', 'n', 't'] }

/-- The lexer's ordered `token_defs` list from src/main.py. -/
def mainLexerDefs : List TokenDefinition :=
  [tdPLUS, tdMINUS, tdMULTIPLY, tdDIVIDE, tdLPAREN, tdRPAREN,
   tdNUMBER, tdSTRING, tdPRINT]

/-- The "math" rule definition of src/main.py. -/
def mathDefn : Defn :=
  [("a", [.tok tdNUMBER, .tok tdSTRING]),
   ("b", [.tok tdPLUS, .tok tdMINUS, .tok tdMULTIPLY, .tok tdDIVIDE]),
   ("c", [.tok tdNUMBER, .tok tdSTRING]),
   ("optional", [.ruleRef "math_continuer"])]

/-- The "math_continuer" rule definition of src/main.py. -/
def mathContinuerDefn : Defn :=
  [("a", [.tok tdPLUS, .tok tdMINUS, .tok tdMULTIPLY, .tok tdDIVIDE]),
   ("b", [.tok tdNUMBER, .tok tdSTRING, .ruleRef "paren_math"]),
   ("optional", [.ruleRef "math_continuer"])]

/-- The "paren_math" rule definition of src/main.py. -/
def parenMathDefn : Defn :=
  [("a", [.tok tdLPAREN]),
   ("b", [.ruleRef "math", .ruleRef "paren_math", .ruleRef "math_continuer"]),
   ("c", [.tok tdRPAREN]),
   ("optional", [.ruleRef "math_continuer"])]

/-- The "print" rule definition of src/main.py. -/
def printDefn : Defn :=
  [("a", [.tok tdPRINT]),
   ("b", [.tok tdLPAREN]),
   ("c", [.tok tdSTRING, .ruleRef "math", .ruleRef "paren_math", .ruleRef "math_continuer"]),
   ("d", [.tok tdRPAREN])]

/-- The rule registry of src/main.py (rules created in lines 34-37, then
their definitions installed in place). -/
def mathEnv : Env :=
  [("paren_math", parenMathDefn), ("math", mathDefn),
   ("math_continuer", mathContinuerDefn), ("print", printDefn)]

/-- The token sequence `tokenize` produces for the input "3 + 4 5" with the
src/main.py lexer. -/
def toks345 : List Token :=
  [⟨tdNUMBER, ['3'], 0⟩, ⟨tdPLUS, ['+'], 2⟩, ⟨tdNUMBER, ['4'], 4⟩,
   ⟨tdNUMBER, ['5'], 6⟩]

/-- The parse node the "math" rule produces on the first three tokens of
"3 + 4 5" (the trailing "5" stays unconsumed). -/
def node34 : Node :=
  .node "math"
    [("a", .leaf "NUMBER" ['3']), ("b", .leaf "PLUS" ['+']),
     ("c", .leaf "NUMBER" ['4'])] none

/-! ### Further concrete fixtures used by individual claims -/

/-- A literal token type "++", as `add_token("PLUSPLUS", "++")` creates it. -/
def tdPLUSPLUS : TokenDefinition := { name := "PLUSPLUS", value := some ['+', '+'] }

/-- Number of tokens in a lexing outcome (0 for errors); used to compare
outcomes without a decidable equality on parse results. -/
def tokenCount : Option (Except Nat (List Token)) → Nat
  | some (.ok toks) => toks.length
  | _ => 0

/-- The allocation id of a registry entry (object identity); used to compare
handles. -/
def objId : Option ParsingRuleObj → Nat
  | some obj => obj.id
  | none => 0

/-- A tiny grammar exercising the optional loop: one mandatory slot matching
a PLUS token, then zero or more NUMBER tokens. -/
def optDefn : Defn :=
  [("a", [Element.tok tdPLUS]), ("optional", [Element.tok tdNUMBER])]

/-- Tokens "+ 1 2" for the optional-loop fixture. -/
def optToks : List Token :=
  [⟨tdPLUS, ['+'], 0⟩, ⟨tdNUMBER, ['1'], 2⟩, ⟨tdNUMBER, ['2'], 4⟩]

/-- A rule whose "optional" slot refers to the rule "e", whose definition is
the empty dict: rule "e" matches zero tokens, so the optional loop of rule
"r" can never stop once the mandatory slot has matched. -/
def nullableOptDefn : Defn :=
  [("a", [Element.tok tdPLUS]), ("optional", [Element.ruleRef "e"])]

/-- The registry holding the nullable-optional grammar. -/
def nullableEnv : Env := [("r", nullableOptDefn), ("e", [])]

/-- A single PLUS token, on which rule "r" of `nullableEnv` hangs. -/
def nullableToks : List Token := [⟨tdPLUS, ['+'], 0⟩]

/-! ### Small facts about the dict embedding -/

/-- Looking up a key right after assigning it yields the assigned value. -/
theorem alookup_dictSet_self {α : Type} (d : List (String × α)) (k : String) (v : α) :
    alookup k (dictSet d k v) = some v := by
  induction d with
  | nil => simp [dictSet, alookup]
  | cons kv rest ih =>
      obtain ⟨k', v'⟩ := kv
      by_cases hk : k' = k
      · subst hk
        simp [dictSet, alookup]
      · simpa [dictSet, alookup, hk] using ih

/-! ### Lemmas about the lexer -/

/-- None of the four auto patterns can match the empty string: every
successful `re.match` consumes at least one character. -/
theorem patMatch_pos (p : Pat) (s : List Char) (n : Nat)
    (h : patMatch p s = some n) : 0 < n := by
  cases p <;> simp only [patMatch] at h
  · -- number
    split at h
    · exact Option.noConfusion h
    · rename_i hne
      split at h
      · split at h <;> (injection h with h2; omega)
      · injection h with h2; omega
  · -- string
    split at h
    · split at h
      · exact Option.noConfusion h
      · injection h with h2; omega
    · exact Option.noConfusion h
  · -- identifier
    split at h
    · split at h
      · injection h with h2; omega
      · exact Option.noConfusion h
    · exact Option.noConfusion h
  · -- word
    split at h
    · exact Option.noConfusion h
    · rename_i hne; injection h with h2; omega

/-- Since no auto pattern matches the empty string, the source's pattern
scan (take any match) agrees with the spec's wording (take a non-empty
match). -/
theorem findPat_eq_spec (defs : List TokenDefinition) (rest : List Char) :
    findPat defs rest = specFindPat defs rest := by
  induction defs with
  | nil => rfl
  | cons td tds ih =>
      cases hv : td.value with
      | some lit => simpa only [findPat, specFindPat, hv] using ih
      | none =>
          cases hp : td.pattern with
          | none => simpa only [findPat, specFindPat, hv, hp] using ih
          | some p =>
              cases hm : patMatch p rest with
              | none => simpa only [findPat, specFindPat, hv, hp, hm] using ih
              | some n =>
                  have hn : ¬ n = 0 := by
                    have := patMatch_pos p rest n hm; omega
                  simp only [findPat, specFindPat, hv, hp, hm, if_neg hn]

/-- The scanning loops agree step by step. -/
theorem tokenizeFrom_eq_spec (defs : List TokenDefinition) :
    ∀ fuel text pos, tokenizeFrom defs fuel text pos =
      specTokenizeFrom defs fuel text pos := by
  intro fuel
  induction fuel with
  | zero => intro text pos; rfl
  | succ n ih =>
      intro text pos
      simp only [tokenizeFrom, specTokenizeFrom]
      split
      · split
        · rfl
        · rw [findPat_eq_spec]
          cases hl : findLiteral defs (List.drop (pos + takeWhileLen isPySpace (List.drop pos text)) text) with
          | some q =>
              obtain ⟨td, lit⟩ := q
              simp only [ih]
          | none =>
              cases hp : specFindPat defs (List.drop (pos + takeWhileLen isPySpace (List.drop pos text)) text) with
              | some q =>
                  obtain ⟨td, len⟩ := q
                  simp only [ih]
              | none => rfl
      · rfl

/-- Dropping a prefix never lengthens a list. -/
theorem dropWhileLen_le (p : Char → Bool) (l : List Char) :
    (l.dropWhile p).length ≤ l.length := by
  induction l with
  | nil => simp
  | cons c cs ih =>
      by_cases hc : p c
      · simp only [List.dropWhile, hc]
        exact le_trans ih (Nat.le_succ _)
      · simp [List.dropWhile, hc]

/-- `rstrip` never lengthens a string. -/
theorem rstrip_length_le (s : List Char) : (rstrip s).length ≤ s.length := by
  simpa [rstrip] using dropWhileLen_le isPySpace s.reverse

/-- A string equal to its own `strip` does not start with whitespace. -/
theorem strip_eq_self_head (c : Char) (rest : List Char)
    (h : strip (c :: rest) = c :: rest) : isPySpace c = false := by
  by_contra hc
  simp only [Bool.not_eq_false] at hc
  have h1 : lstrip (c :: rest) = rest.dropWhile isPySpace := by
    simp [lstrip, List.dropWhile, hc]
  have h2 : (strip (c :: rest)).length ≤ rest.length := by
    rw [strip, h1]
    exact le_trans (rstrip_length_le _) (dropWhileLen_le _ _)
  rw [h] at h2
  simp at h2

/-- Every string is a prefix of itself. -/
theorem isLitAt_self (v : List Char) : isLitAt v v = true := by
  induction v with
  | nil => rfl
  | cons c cs ih => simp [isLitAt, ih]

/-- Definitions whose literal is not a prefix of the text (and pattern
definitions) are passed over by the literal scan. -/
theorem findLiteral_skip (pre rest : List TokenDefinition) (v : List Char)
    (h : ∀ td ∈ pre, ∀ w, td.value = some w → isLitAt v w = false) :
    findLiteral (pre ++ rest) v = findLiteral rest v := by
  induction pre with
  | nil => rfl
  | cons td tds ih =>
      have hrec : ∀ td' ∈ tds, ∀ w, td'.value = some w → isLitAt v w = false :=
        fun td' hm => h td' (List.mem_cons_of_mem _ hm)
      cases hv : td.value with
      | none => simpa only [List.cons_append, findLiteral, hv] using ih hrec
      | some w =>
          have hw := h td (List.mem_cons_self _ _) w hv
          simp only [List.cons_append, findLiteral, hv, hw, Bool.false_eq_true,
            if_false]
          exact ih hrec

/-- The literal scan takes a definition whose literal is the whole text. -/
theorem findLiteral_cons_self (td : TokenDefinition) (suf : List TokenDefinition)
    (v : List Char) (hval : td.value = some v) :
    findLiteral (td :: suf) v = some (td, v) := by
  simp [findLiteral, hval, isLitAt_self]

/-! ### The position invariant of the recursive matcher -/

/-- The position invariant, proved simultaneously for the five mutually
recursive matcher functions by induction on the fuel: the returned position
never moves backwards, never passes the end of the token list (when the
entry position is in range), and a failed match returns the entry position
unchanged. -/
theorem matcherPosInv (env : Env) (tokens : List Token) : ∀ fuel : Nat,
    (∀ name defn pos r p', parseRule env fuel name defn tokens pos = some (r, p') →
      pos ≤ p' ∧ (pos ≤ tokens.length → p' ≤ tokens.length) ∧
        (r = none → p' = pos)) ∧
    (∀ parts pos r p', parseParts env fuel parts tokens pos = some (r, p') →
      pos ≤ p' ∧ (pos ≤ tokens.length → p' ≤ tokens.length)) ∧
    (∀ alts pos r p', parseAlts env fuel alts tokens pos = some (r, p') →
      pos ≤ p' ∧ (pos ≤ tokens.length → p' ≤ tokens.length) ∧
        (r = none → p' = pos)) ∧
    (∀ opts pos acc r p', parseOptional env fuel opts tokens pos acc = some (r, p') →
      pos ≤ p' ∧ (pos ≤ tokens.length → p' ≤ tokens.length)) ∧
    (∀ el pos r p', parseElement env fuel el tokens pos = some (r, p') →
      pos ≤ p' ∧ (pos ≤ tokens.length → p' ≤ tokens.length) ∧
        (r = none → p' = pos)) := by
  intro fuel
  induction fuel with
  | zero =>
      refine ⟨?_, ?_, ?_, ?_, ?_⟩ <;>
      · intros
        rename_i h
        simp [parseRule, parseParts, parseAlts, parseOptional, parseElement] at h
  | succ n ih =>
      obtain ⟨ihRule, ihParts, ihAlts, ihOpt, ihElem⟩ := ih
      refine ⟨?_, ?_, ?_, ?_, ?_⟩
      · -- parseRule
        intro name defn pos r p' h
        simp only [parseRule] at h
        cases hm : parseParts env n (mandatoryParts defn) tokens pos with
        | none => simp only [hm] at h; exact Option.noConfusion h
        | some q =>
            obtain ⟨rm, pos1⟩ := q
            simp only [hm] at h
            cases rm with
            | none =>
                simp only [Option.some.injEq, Prod.mk.injEq] at h
                obtain ⟨hr, hp⟩ := h
                exact hp ▸ ⟨le_refl _, fun hb => hb, fun _ => rfl⟩
            | some parts =>
                have hparts := ihParts _ _ _ _ hm
                cases ho : alookup "optional" defn with
                | none =>
                    simp only [ho, Option.some.injEq, Prod.mk.injEq] at h
                    obtain ⟨hr, hp⟩ := h
                    subst hp
                    exact ⟨hparts.1, hparts.2, fun hc => by
                      rw [← hr] at hc; cases hc⟩
                | some opts =>
                    simp only [ho] at h
                    cases hl : parseOptional env n opts tokens pos1 [] with
                    | none => simp only [hl] at h; exact Option.noConfusion h
                    | some q2 =>
                        obtain ⟨results, pos2⟩ := q2
                        simp only [hl, Option.some.injEq, Prod.mk.injEq] at h
                        obtain ⟨hr, hp⟩ := h
                        subst hp
                        have hloop := ihOpt _ _ _ _ _ hl
                        refine ⟨le_trans hparts.1 hloop.1,
                          fun hb => hloop.2 (hparts.2 hb), fun hc => ?_⟩
                        rw [← hr] at hc; cases hc
      · -- parseParts
        intro parts pos r p' h
        cases parts with
        | nil =>
            simp only [parseParts, Option.some.injEq, Prod.mk.injEq] at h
            obtain ⟨hr, hp⟩ := h
            exact hp ▸ ⟨le_refl _, fun hb => hb⟩
        | cons hd tl =>
            obtain ⟨part, alts⟩ := hd
            simp only [parseParts] at h
            cases ha : parseAlts env n alts tokens pos with
            | none => simp only [ha] at h; exact Option.noConfusion h
            | some q =>
                obtain ⟨ra, pos1⟩ := q
                simp only [ha] at h
                cases ra with
                | none =>
                    simp only [Option.some.injEq, Prod.mk.injEq] at h
                    obtain ⟨hr, hp⟩ := h
                    exact hp ▸ ⟨le_refl _, fun hb => hb⟩
                | some nd =>
                    have halts := ihAlts _ _ _ _ ha
                    cases hrest : parseParts env n tl tokens pos1 with
                    | none => simp only [hrest] at h; exact Option.noConfusion h
                    | some q2 =>
                        obtain ⟨rr, pos2⟩ := q2
                        simp only [hrest] at h
                        have htl := ihParts _ _ _ _ hrest
                        cases rr with
                        | none =>
                            simp only [Option.some.injEq, Prod.mk.injEq] at h
                            obtain ⟨hr, hp⟩ := h
                            subst hp
                            exact ⟨le_trans halts.1 htl.1,
                              fun hb => htl.2 (halts.2.1 hb)⟩
                        | some ns =>
                            simp only [Option.some.injEq, Prod.mk.injEq] at h
                            obtain ⟨hr, hp⟩ := h
                            subst hp
                            exact ⟨le_trans halts.1 htl.1,
                              fun hb => htl.2 (halts.2.1 hb)⟩
      · -- parseAlts
        intro alts pos r p' h
        cases alts with
        | nil =>
            simp only [parseAlts, Option.some.injEq, Prod.mk.injEq] at h
            obtain ⟨hr, hp⟩ := h
            exact hp ▸ ⟨le_refl _, fun hb => hb, fun _ => rfl⟩
        | cons alt tl =>
            simp only [parseAlts] at h
            cases he : parseElement env n alt tokens pos with
            | none => simp only [he] at h; exact Option.noConfusion h
            | some q =>
                obtain ⟨re, pos1⟩ := q
                simp only [he] at h
                cases re with
                | none => exact ihAlts _ _ _ _ h
                | some nd =>
                    simp only [Option.some.injEq, Prod.mk.injEq] at h
                    obtain ⟨hr, hp⟩ := h
                    subst hp
                    have helem := ihElem _ _ _ _ he
                    exact ⟨helem.1, helem.2.1, fun hc => by
                      rw [← hr] at hc; cases hc⟩
      · -- parseOptional
        intro opts pos acc r p' h
        simp only [parseOptional] at h
        cases ha : parseAlts env n opts tokens pos with
        | none => simp only [ha] at h; exact Option.noConfusion h
        | some q =>
            obtain ⟨ra, pos1⟩ := q
            simp only [ha] at h
            cases ra with
            | none =>
                simp only [Option.some.injEq, Prod.mk.injEq] at h
                obtain ⟨hr, hp⟩ := h
                exact hp ▸ ⟨le_refl _, fun hb => hb⟩
            | some nd =>
                have halts := ihAlts _ _ _ _ ha
                have hrec := ihOpt _ _ _ _ _ h
                exact ⟨le_trans halts.1 hrec.1,
                  fun hb => hrec.2 (halts.2.1 hb)⟩
      · -- parseElement
        intro el pos r p' h
        cases el with
        | tok td =>
            simp only [parseElement] at h
            by_cases hb : pos < tokens.length
            · rw [dif_pos hb] at h
              by_cases heq : (tokens.get ⟨pos, hb⟩).type.pyEq td = true
              · rw [if_pos heq] at h
                simp only [Option.some.injEq, Prod.mk.injEq] at h
                obtain ⟨hr, hp⟩ := h
                subst hp
                exact ⟨Nat.le_succ _, fun _ => hb, fun hc => by
                  rw [← hr] at hc; cases hc⟩
              · rw [if_neg heq] at h
                simp only [Option.some.injEq, Prod.mk.injEq] at h
                obtain ⟨hr, hp⟩ := h
                exact hp ▸ ⟨le_refl _, fun hx => hx, fun _ => rfl⟩
            · rw [dif_neg hb] at h
              simp only [Option.some.injEq, Prod.mk.injEq] at h
              obtain ⟨hr, hp⟩ := h
              exact hp ▸ ⟨le_refl _, fun hx => hx, fun _ => rfl⟩
        | ruleRef name =>
            simp only [parseElement] at h
            cases hl : alookup name env with
            | none =>
                simp only [hl, Option.some.injEq, Prod.mk.injEq] at h
                obtain ⟨hr, hp⟩ := h
                exact hp ▸ ⟨le_refl _, fun hx => hx, fun _ => rfl⟩
            | some defn =>
                simp only [hl] at h
                exact ihRule _ _ _ _ _ h
        | inline defn =>
            simp only [parseElement] at h
            exact ihRule _ _ _ _ _ h

/-! ### The nullable-optional grammar hangs the parser

In `nullableEnv`, rule "e" has the empty definition, so `_parse_rule` on it
returns a node without consuming a token; the optional loop of rule "r"
therefore repeats at a fixed position forever.  In the fuel embedding the
infinite loop shows up as `none` (fuel exhaustion) for every fuel. -/

/-- Matching the empty rule "e" either runs out of fuel or succeeds at the
same position, consuming nothing. -/
theorem nullable_empty_rule (fuel : Nat) :
    parseRule nullableEnv fuel "e" [] nullableToks 1 = none ∨
    parseRule nullableEnv fuel "e" [] nullableToks 1 =
      some (some (Node.node "e" [] none), 1) := by
  match fuel with
  | 0 => exact .inl rfl
  | 1 => exact .inl rfl
  | (n + 2) => exact .inr rfl

/-- The element "reference to rule e" inherits the same two outcomes. -/
theorem nullable_element (fuel : Nat) :
    parseElement nullableEnv fuel (Element.ruleRef "e") nullableToks 1 = none ∨
    parseElement nullableEnv fuel (Element.ruleRef "e") nullableToks 1 =
      some (some (Node.node "e" [] none), 1) := by
  match fuel with
  | 0 => exact .inl rfl
  | (k + 1) =>
      have key : parseElement nullableEnv (k + 1) (Element.ruleRef "e")
          nullableToks 1 = parseRule nullableEnv k "e" [] nullableToks 1 := rfl
      rcases nullable_empty_rule k with h | h
      · exact .inl (key.trans h)
      · exact .inr (key.trans h)

/-- One round over the optional alternatives either runs out of fuel or
matches rule "e" without advancing. -/
theorem nullable_alts (fuel : Nat) :
    parseAlts nullableEnv fuel [Element.ruleRef "e"] nullableToks 1 = none ∨
    parseAlts nullableEnv fuel [Element.ruleRef "e"] nullableToks 1 =
      some (some (Node.node "e" [] none), 1) := by
  match fuel with
  | 0 => exact .inl rfl
  | (k + 1) =>
      rcases nullable_element k with h | h
      · exact .inl (by simp only [parseAlts, h])
      · exact .inr (by simp only [parseAlts, h])

/-- The optional loop of rule "r" never terminates: it exhausts any fuel. -/
theorem nullable_optional_loop (fuel : Nat) :
    ∀ acc, parseOptional nullableEnv fuel [Element.ruleRef "e"] nullableToks 1 acc =
      none := by
  induction fuel with
  | zero => intro acc; rfl
  | succ n ih =>
      intro acc
      rcases nullable_alts n with h | h
      · simp only [parseOptional, h]
      · simp only [parseOptional, h]
        exact ih (acc ++ [Node.node "e" [] none])

/-- Matching rule "r" of the nullable-optional grammar exhausts any fuel:
the Python parser loops forever on it. -/
theorem nullable_rule_hangs (fuel : Nat) :
    parseRule nullableEnv fuel "r" nullableOptDefn nullableToks 0 = none := by
  match fuel with
  | 0 => rfl
  | 1 => rfl
  | 2 => rfl
  | 3 => rfl
  | (n + 4) =>
      have hparts : parseParts nullableEnv (n + 3) (mandatoryParts nullableOptDefn)
          nullableToks 0 = some (some [("a", Node.leaf "PLUS" ['+'])], 1) := rfl
      have hopt : alookup "optional" nullableOptDefn =
          some [Element.ruleRef "e"] := rfl
      simp only [parseRule, hparts, hopt]
      simp only [nullable_optional_loop (n + 3) []]

/-! ### The claims -/

/-- C1: for every rule, token sequence and entry position, if some mandatory
slot has no alternative that matches (the mandatory-slot loop fails), the
whole rule match fails and the returned position equals the entry position,
so no tokens consumed by earlier slots of the failed rule stay consumed. -/
theorem claim1_mandatory_failure_is_transactional
    (env : Env) (fuel : Nat) (name : String) (defn : Defn)
    (tokens : List Token) (pos q : Nat)
    (hfail : parseParts env fuel (mandatoryParts defn) tokens pos = some (none, q)) :
    parseRule env (fuel + 1) name defn tokens pos = some (none, pos) := by
  simp only [parseRule, hfail]

/-- Witness for C1: a rule demanding a PLUS token fails on the empty token
sequence and hands the entry position 0 back. -/
theorem claim1_mandatory_failure_is_transactional_witness :
    parseRule [] 6 "r" [("a", [Element.tok tdPLUS])] [] 0 = some (none, 0) :=
  claim1_mandatory_failure_is_transactional [] 5 "r"
    [("a", [Element.tok tdPLUS])] [] 0 0 rfl

/-- C2: whenever `parse` terminates, it raises exactly when the start rule
does not match from position 0 or the match ends strictly before the end of
the token sequence; in particular "3 + 4 5" lexes to four tokens of which
the "math" rule consumes three, so `parse` raises `Parsing failed`. -/
theorem claim2_parse_requires_full_consumption
    (env : Env) (fuel : Nat) (start : String) (defn : Defn)
    (tokens : List Token) (r : Except String Node)
    (hdef : alookup start env = some defn)
    (hrun : parse env fuel start tokens = some r) :
    ((∃ e, r = Except.error e) ↔
      (∃ p', parseRule env fuel start defn tokens 0 = some (none, p')) ∨
      (∃ nd p', parseRule env fuel start defn tokens 0 = some (some nd, p') ∧
        p' < tokens.length)) ∧
    tokenize mainLexerDefs ("3 + 4 5".toList) = some (.ok toks345) ∧
    parseRule mathEnv 32 "math" mathDefn toks345 0 = some (some node34, 3) ∧
    toks345.length = 4 ∧
    parse mathEnv 32 "math" toks345 = some (.error "Parsing failed") := by
  refine ⟨?_, rfl, rfl, rfl, rfl⟩
  simp only [parse, hdef] at hrun
  cases hp : parseRule env fuel start defn tokens 0 with
  | none => rw [hp] at hrun; simp at hrun
  | some q =>
      obtain ⟨rr, p'⟩ := q
      rw [hp] at hrun
      cases rr with
      | none =>
          simp only [Option.some.injEq] at hrun
          subst hrun
          constructor
          · intro _
            exact .inl ⟨p', rfl⟩
          · intro _
            exact ⟨"Parsing failed", rfl⟩
      | some nd =>
          by_cases hlen : p' = tokens.length
          · rw [show (match (some (some nd, p') : Option (Option Node × Nat)) with
              | none => (none : Option (Except String Node))
              | some (none, _) => some (.error "Parsing failed")
              | some (some node, pos) =>
                  if pos = tokens.length then some (.ok node)
                  else some (.error "Parsing failed")) =
                if p' = tokens.length then some (.ok nd)
                else some (.error "Parsing failed") from rfl, if_pos hlen] at hrun
            simp only [Option.some.injEq] at hrun
            subst hrun
            constructor
            · rintro ⟨e, he⟩
              exact Except.noConfusion he
            · rintro (⟨p2, h2⟩ | ⟨nd2, p2, h2, hlt⟩)
              · injection h2 with h3
                injection h3 with h4 h5
                exact Option.noConfusion h4
              · injection h2 with h3
                injection h3 with h4 h5
                omega
          · rw [show (match (some (some nd, p') : Option (Option Node × Nat)) with
              | none => (none : Option (Except String Node))
              | some (none, _) => some (.error "Parsing failed")
              | some (some node, pos) =>
                  if pos = tokens.length then some (.ok node)
                  else some (.error "Parsing failed")) =
                if p' = tokens.length then some (.ok nd)
                else some (.error "Parsing failed") from rfl, if_neg hlen] at hrun
            simp only [Option.some.injEq] at hrun
            subst hrun
            have hle : p' ≤ tokens.length :=
              ((matcherPosInv env tokens fuel).1 _ _ _ _ _ hp).2.1 (Nat.zero_le _)
            constructor
            · intro _
              exact .inr ⟨nd, p', rfl, lt_of_le_of_ne hle hlen⟩
            · intro _
              exact ⟨"Parsing failed", rfl⟩

/-- Witness for C2: the characterization instantiated on the "3 + 4 5"
run itself. -/
theorem claim2_parse_requires_full_consumption_witness :
    (∃ e, (Except.error "Parsing failed" : Except String Node) = Except.error e) ↔
      (∃ p', parseRule mathEnv 32 "math" mathDefn toks345 0 = some (none, p')) ∨
      (∃ nd p', parseRule mathEnv 32 "math" mathDefn toks345 0 =
          some (some nd, p') ∧ p' < toks345.length) :=
  (claim2_parse_requires_full_consumption mathEnv 32 "math" mathDefn toks345
    (Except.error "Parsing failed") rfl rfl).1

/-- C3: with the mandatory slots matched and the optional loop terminated,
the rule always succeeds (the optional phase cannot fail it), its node
carries the accumulated list under "optional" exactly when that list is
non-empty, and each loop round appends the first matching alternative's
result and advances, stopping at the first round with no match. -/
theorem claim3_optional_phase
    (env : Env) (fuel : Nat) (name : String) (defn : Defn) (opts : List Element)
    (tokens : List Token) (pos pos1 : Nat) (parts : List (String × Node))
    (results : List Node) (pos2 : Nat)
    (hopts : alookup "optional" defn = some opts)
    (hmand : parseParts env fuel (mandatoryParts defn) tokens pos =
      some (some parts, pos1))
    (hloop : parseOptional env fuel opts tokens pos1 [] = some (results, pos2)) :
    parseRule env (fuel + 1) name defn tokens pos =
      some (some (Node.node name parts
        (if results.isEmpty then none else some results)), pos2) ∧
    (∀ fuel2 pos3 acc q,
      parseAlts env fuel2 opts tokens pos3 = some (none, q) →
      parseOptional env (fuel2 + 1) opts tokens pos3 acc = some (acc, pos3)) ∧
    (∀ fuel2 pos3 acc nd q,
      parseAlts env fuel2 opts tokens pos3 = some (some nd, q) →
      parseOptional env (fuel2 + 1) opts tokens pos3 acc =
        parseOptional env fuel2 opts tokens q (acc ++ [nd])) := by
  refine ⟨?_, ?_, ?_⟩
  · simp only [parseRule, hmand, hopts, hloop]
  · intro fuel2 pos3 acc q h
    simp only [parseOptional, h]
  · intro fuel2 pos3 acc nd q h
    simp only [parseOptional, h]

/-- Witness for C3: "+ 1 2" against the optional-loop grammar; the loop
collects the two NUMBER tokens and the rule succeeds at position 3. -/
theorem claim3_optional_phase_witness :
    parseRule [] 7 "r" optDefn optToks 0 =
      some (some (Node.node "r" [("a", Node.leaf "PLUS" ['+'])]
        (if ([Node.leaf "NUMBER" ['1'], Node.leaf "NUMBER" ['2']] : List Node).isEmpty
          then none
          else some [Node.leaf "NUMBER" ['1'], Node.leaf "NUMBER" ['2']])), 3) :=
  (claim3_optional_phase [] 6 "r" optDefn [Element.tok tdNUMBER] optToks 0 1
    [("a", Node.leaf "PLUS" ['+'])] [Node.leaf "NUMBER" ['1'], Node.leaf "NUMBER" ['2']]
    3 rfl rfl rfl).1

/-- C4: contrary to the claim, a rule whose "optional" slot holds an
alternative that can match zero tokens is NOT rejected at definition time:
`__setitem__`/`update_definition` install it verbatim without any
validation, and the parser then loops forever on it (exhausting every fuel
in the embedding). -/
theorem claim4_nullable_optional_not_rejected :
    alookup "r" (setitem
      (setitem (new_parsing_rule (new_parsing_rule emptyParser "r") "e") "e" [])
      "r" nullableOptDefn).rules = some ⟨0, "r", nullableOptDefn⟩ ∧
    (∀ fuel, parseRule nullableEnv fuel "r" nullableOptDefn nullableToks 0 =
      none) :=
  ⟨rfl, nullable_rule_hangs⟩

/-- C5: the lexing algorithm agrees with the spec's wording (trim; skip
whitespace runs; first literal-prefix match in registration order; else
first non-empty pattern match in registration order; else fail with the
offset), and the main-grammar lexer fails at offset 0 on input starting
with the unregistered character at-sign. -/
theorem claim5_lexing_algorithm :
    (∀ defs text, tokenize defs text = specTokenize defs text) ∧
    tokenize mainLexerDefs ['@', '3'] = some (.error 0) := by
  constructor
  · intro defs text
    simp only [tokenize, specTokenize]
    exact tokenizeFrom_eq_spec defs _ _ _
  · rfl

/-- C6 counterexample: with literals "+" then "++" registered in that
order, lexing the input "++" (exactly the literal of the registered kind
PLUSPLUS) yields two PLUS tokens, not one PLUSPLUS token — the claim fails
because the literal scan is first-match in registration order, not
longest-match. -/
theorem claim6_literal_roundtrip_counterexample :
    tokenize [tdPLUS, tdPLUSPLUS] ['+', '+'] =
      some (.ok [⟨tdPLUS, ['+'], 0⟩, ⟨tdPLUS, ['+'], 1⟩]) ∧
    ¬ tokenize [tdPLUS, tdPLUSPLUS] ['+', '+'] =
        some (.ok [⟨tdPLUSPLUS, ['+', '+'], 0⟩]) := by
  refine ⟨rfl, fun h => ?_⟩
  exact absurd (congrArg tokenCount h) (by decide)

/-- C6 amended: for a registered literal kind whose value is non-empty, is
unchanged by trimming, and has no earlier-registered literal kind's value
as a prefix, tokenizing exactly that value yields one token of that kind at
offset 0. -/
theorem claim6_literal_roundtrip_amended
    (pre suf : List TokenDefinition) (td : TokenDefinition) (v : List Char)
    (hval : td.value = some v) (hne : v ≠ [])
    (hstrip : strip v = v)
    (hpre : ∀ td' ∈ pre, ∀ w, td'.value = some w → isLitAt v w = false) :
    tokenize (pre ++ td :: suf) v = some (.ok [⟨td, v, 0⟩]) := by
  obtain ⟨c, rest, rfl⟩ : ∃ c r, v = c :: r := by
    cases v with
    | nil => exact absurd rfl hne
    | cons c r => exact ⟨c, r, rfl⟩
  have hws : isPySpace c = false := strip_eq_self_head c rest hstrip
  simp only [tokenize, hstrip]
  have hlen : (c :: rest).length + 1 = rest.length + 1 + 1 := by simp
  rw [hlen]
  simp only [tokenizeFrom, List.drop_zero, takeWhileLen, hws, Bool.false_eq_true,
    if_false, Nat.add_zero, List.length_cons]
  rw [findLiteral_skip pre (td :: suf) _ hpre, findLiteral_cons_self td suf _ hval]
  simp

/-- Witness for the amended C6: literal "*" registered after literal "+"
and the NUMBER pattern lexes as the single MULTIPLY token. -/
theorem claim6_literal_roundtrip_amended_witness :
    tokenize ([tdPLUS, tdNUMBER] ++ tdMULTIPLY :: []) ['*'] =
      some (.ok [⟨tdMULTIPLY, ['*'], 0⟩]) :=
  claim6_literal_roundtrip_amended [tdPLUS, tdNUMBER] [] tdMULTIPLY ['*']
    rfl (by decide) rfl
    (by
      intro td' hm w hw
      rcases List.mem_cons.mp hm with h1 | h2
      · subst h1
        injection hw with hw2
        subst hw2
        decide
      · rcases List.mem_cons.mp h2 with h3 | h4
        · subst h3
          exact Option.noConfusion hw
        · cases h4)

/-- C7: the start-rule selection of `interpret` on text input: a rule named
"program" wins; else the first token's kind name when registered, exactly
then lowercased; else an LPAREN first token selects "paren_math" when that
rule exists; else the default "math". -/
theorem claim7_start_rule_policy (names : List String) (t : Token)
    (ts : List Token) :
    ("program" ∈ names → selectStartRule names (t :: ts) = "program") ∧
    ("program" ∉ names → t.type.name ∈ names →
      selectStartRule names (t :: ts) = t.type.name) ∧
    ("program" ∉ names → t.type.name ∉ names → t.type.name.toLower ∈ names →
      selectStartRule names (t :: ts) = t.type.name.toLower) ∧
    ("program" ∉ names → t.type.name ∉ names → t.type.name.toLower ∉ names →
      t.type.name = "LPAREN" → "paren_math" ∈ names →
      selectStartRule names (t :: ts) = "paren_math") ∧
    ("program" ∉ names → t.type.name ∉ names → t.type.name.toLower ∉ names →
      ¬(t.type.name = "LPAREN" ∧ "paren_math" ∈ names) →
      selectStartRule names (t :: ts) = "math") := by
  refine ⟨?_, ?_, ?_, ?_, ?_⟩
  · intro h1
    simp only [selectStartRule, if_pos h1]
  · intro h1 h2
    simp only [selectStartRule, if_neg h1, if_pos h2]
  · intro h1 h2 h3
    simp only [selectStartRule, if_neg h1, if_neg h2, if_pos h3]
  · intro h1 h2 h3 h4 h5
    simp only [selectStartRule, if_neg h1, if_neg h2, if_neg h3,
      if_pos (And.intro h4 h5)]
  · intro h1 h2 h3 h4
    simp only [selectStartRule, if_neg h1, if_neg h2, if_neg h3, if_neg h4]

/-- Witness for C7: with a rule "program" registered it is always the start
rule. -/
theorem claim7_start_rule_policy_witness :
    selectStartRule ["program"] [⟨tdPLUS, ['+'], 0⟩] = "program" :=
  (claim7_start_rule_policy ["program"] ⟨tdPLUS, ['+'], 0⟩ []).1 (by decide)

/-- C8 counterexample: `new_parsing_rule` is not idempotent — a second call
with the same name allocates a fresh, empty rule (a new object identity)
and rebinds the name to it, discarding the first handle; the registry entry
after the second call differs from the entry after the first. -/
theorem claim8_defineRule_idempotent_counterexample :
    objId (alookup "r"
      (new_parsing_rule (new_parsing_rule emptyParser "r") "r").rules) = 1 ∧
    objId (alookup "r" (new_parsing_rule emptyParser "r").rules) = 0 ∧
    (new_parsing_rule (new_parsing_rule emptyParser "r") "r").nextId = 2 ∧
    alookup "r" (new_parsing_rule (new_parsing_rule emptyParser "r") "r").rules ≠
      alookup "r" (new_parsing_rule emptyParser "r").rules := by
  refine ⟨rfl, rfl, rfl, fun h => ?_⟩
  exact absurd (congrArg objId h) (by decide)

/-- C8 amended: `__setitem__` on an existing name updates the bound rule
object in place (same identity, new definition), so handles obtained
earlier see the updated definition; `new_parsing_rule`, in contrast, always
rebinds the name to a fresh empty rule. -/
theorem claim8_setitem_updates_in_place
    (s : ParserState) (name : String) (obj : ParsingRuleObj) (d : Defn)
    (h : alookup name s.rules = some obj) :
    alookup name (setitem s name d).rules = some (updateDefinition obj d) ∧
    alookup name (new_parsing_rule s name).rules = some ⟨s.nextId, name, []⟩ := by
  constructor
  · simp only [setitem, h]
    exact alookup_dictSet_self _ _ _
  · simp only [new_parsing_rule]
    exact alookup_dictSet_self _ _ _

/-- Witness for the amended C8: installing a definition over the rule "r"
created by `new_parsing_rule` keeps identity 0 and stores the definition. -/
theorem claim8_setitem_updates_in_place_witness :
    alookup "r" (setitem (new_parsing_rule emptyParser "r") "r"
        [("a", [Element.tok tdPLUS])]).rules =
      some (updateDefinition ⟨0, "r", []⟩ [("a", [Element.tok tdPLUS])]) ∧
    alookup "r" (new_parsing_rule (new_parsing_rule emptyParser "r") "r").rules =
      some ⟨(new_parsing_rule emptyParser "r").nextId, "r", []⟩ :=
  claim8_setitem_updates_in_place (new_parsing_rule emptyParser "r") "r"
    ⟨0, "r", []⟩ [("a", [Element.tok tdPLUS])] rfl

/-- C9: token-kind registration is asymmetrically idempotent — `add_token`
(literal) unconditionally rebinds the name to the new literal definition,
while `add_auto_token` (pattern) leaves the catalog completely unchanged
when the name already exists. -/
theorem claim9_registration_asymmetric_idempotence
    (d : Catalog) (name : String) (lit : List Char) :
    alookup name (add_token d name lit) =
      some { name := name, value := some lit, pattern := none } ∧
    ((alookup name d).isSome = true → add_auto_token d name = d) := by
  constructor
  · exact alookup_dictSet_self _ _ _
  · intro h
    simp [add_auto_token, h]

/-- Witness for C9: re-registering the literal "X" overwrites its value,
and a pattern registration of an existing "X" is a no-op. -/
theorem claim9_registration_asymmetric_idempotence_witness :
    alookup "X" (add_token (add_token [] "X" ['a']) "X" ['b']) =
      some { name := "X", value := some ['b'], pattern := none } ∧
    add_auto_token (add_token [] "X" ['a']) "X" = add_token [] "X" ['a'] :=
  ⟨(claim9_registration_asymmetric_idempotence (add_token [] "X" ['a']) "X"
      ['b']).1,
   (claim9_registration_asymmetric_idempotence (add_token [] "X" ['a']) "X"
      ['b']).2 rfl⟩

/-- C10: for every rule and element, token sequence and in-range entry
position, a terminating match returns a position between the entry position
and the end of the tokens, and a failed match returns exactly the entry
position. -/
theorem claim10_position_invariant
    (env : Env) (fuel : Nat) (name : String) (defn : Defn) (el : Element)
    (tokens : List Token) (pos : Nat) (r1 : Option Node) (p1 : Nat)
    (r2 : Option Node) (p2 : Nat)
    (hpos : pos ≤ tokens.length)
    (hrule : parseRule env fuel name defn tokens pos = some (r1, p1))
    (helem : parseElement env fuel el tokens pos = some (r2, p2)) :
    (pos ≤ p1 ∧ p1 ≤ tokens.length ∧ (r1 = none → p1 = pos)) ∧
    (pos ≤ p2 ∧ p2 ≤ tokens.length ∧ (r2 = none → p2 = pos)) := by
  obtain ⟨hR, -, -, -, hE⟩ := matcherPosInv env tokens fuel
  obtain ⟨a1, b1, c1⟩ := hR _ _ _ _ _ hrule
  obtain ⟨a2, b2, c2⟩ := hE _ _ _ _ helem
  exact ⟨⟨a1, b1 hpos, c1⟩, ⟨a2, b2 hpos, c2⟩⟩

/-- Witness for C10: the empty rule succeeds at position 0 of the empty
token sequence, a PLUS token element fails there, and both return position
0. -/
theorem claim10_position_invariant_witness :
    ((0 : Nat) ≤ 0 ∧ (0 : Nat) ≤ ([] : List Token).length ∧
      ((some (Node.node "r" [] none) : Option Node) = none → (0 : Nat) = 0)) ∧
    ((0 : Nat) ≤ 0 ∧ (0 : Nat) ≤ ([] : List Token).length ∧
      ((none : Option Node) = none → (0 : Nat) = 0)) :=
  claim10_position_invariant [] 2 "r" [] (Element.tok tdPLUS) [] 0
    (some (Node.node "r" [] none)) 0 none 0 (Nat.le_refl 0) rfl rfl

end Pyser
